import Mathlib

/-!
Verification of the packet-ID generator (data/packetid/gen_packetid.go).

The generator walks a decoded JSON protocol document, extracts the two
ID-to-name tables of each connection state (unpackMapping, unnest, mustAtoi),
and renames names shared by the two directions (EnsureUniqueNames).  The Go
code is embedded shallowly: Go maps become insertion-ordered association
lists whose list order models the iteration order, error returns become an
error constructor, and Go runtime panics (failed type assertions, index out
of range, mustAtoi) become a distinct panicked constructor.
-/

namespace GenPacketid

/-- Values of a decoded JSON document, as encoding/json produces them for an
interface target: nested string maps, slices, strings, numbers and null. -/
inductive JValue where
  | obj : List (String × JValue) → JValue
  | arr : List JValue → JValue
  | str : String → JValue
  | num : Int → JValue
  | null : JValue

/-- Association-list lookup: the value of the first entry with the given key.
Models Go map indexing, whose keys are unique. -/
def alLookup {α β : Type} [DecidableEq α] : List (α × β) → α → Option β
  | [], _ => none
  | p :: l, k => if p.1 = k then some p.2 else alLookup l k

/-- Association-list insert: overwrite the first entry with the given key,
or append when the key is absent.  Models Go map assignment. -/
def alInsert {α β : Type} [DecidableEq α] : List (α × β) → α → β → List (α × β)
  | [], k, v => [(k, v)]
  | p :: l, k, v => if p.1 = k then (k, v) :: l else p :: alInsert l k v

/-- Go type switch to a string map, as in a v.(map[string]interface given)
assertion: some on an object, none (panic or mismatch) otherwise. -/
def asObj : JValue → Option (List (String × JValue))
  | .obj l => some l
  | _ => none

/-- Go type assertion to a slice. -/
def asArr : JValue → Option (List JValue)
  | .arr l => some l
  | _ => none

/-- Go type assertion to a string. -/
def asStr : JValue → Option String
  | .str s => some s
  | _ => none

/-- The two error kinds unnest returns via fmt.Errorf: a missing key, or a
value that is not a string map. -/
inductive ExtractErr where
  | notFound (key : String)
  | typeMismatch (key : String)
deriving DecidableEq

/-- Result of a generator fragment: a value, an error return, or a Go
runtime panic. -/
inductive Outcome (α : Type) where
  | ok : α → Outcome α
  | error : ExtractErr → Outcome α
  | panicked : Outcome α
deriving DecidableEq

/-- unnest from gen_packetid.go: descend through nested string maps by a
sequence of keys; a missing key is a notFound error, a value that is not a
string map is a typeMismatch error. -/
def unnest (input : List (String × JValue)) : List String → Except ExtractErr (List (String × JValue))
  | [] => .ok input
  | k :: ks =>
    match alLookup input k with
    | none => .error (.notFound k)
    | some v =>
      match asObj v with
      | none => .error (.typeMismatch k)
      | some next => unnest next ks

/-- Go lower from strconv: force the ASCII lowercase bit of a byte. -/
def goLower (c : Char) : Char := Char.ofNat (c.toNat ||| 32)

/-- One digit of a Go integer literal, as in the conversion loop of
strconv.ParseUint: 0-9, then case-insensitive letters from value 10. -/
def digitVal (c : Char) : Option Nat :=
  if '0' ≤ c ∧ c ≤ '9' then some (c.toNat - '0'.toNat)
  else if 'a' ≤ goLower c ∧ goLower c ≤ 'z' then some ((goLower c).toNat - 'a'.toNat + 10)
  else none

/-- The conversion loop of strconv.ParseUint with bitSize 32: digits in the
given base accumulate into a Nat, failing on a non-digit, a digit at or above
the base, or a value above 2 ^ 32 - 1. -/
def digitsToNat (base : Nat) (cs : List Char) : Option Nat :=
  cs.foldl
    (fun acc c =>
      match acc with
      | none => none
      | some n =>
        match digitVal c with
        | none => none
        | some d =>
          if base ≤ d then none
          else if 2 ^ 32 - 1 < n * base + d then none
          else some (n * base + d))
    (some 0)

/-- Base detection of strconv.ParseUint for base argument 0: a 0b, 0o or 0x
prefix (with at least one character after it) selects binary, octal or hex,
a bare leading zero selects octal, anything else is decimal.  Underscore
digit separators, which Go also accepts for base 0, are not modelled; no
claim involves them. -/
def parseUintBase0 : List Char → Option Nat
  | [] => none
  | '0' :: rest =>
    match rest with
    | [] => some 0
    | c2 :: rest2 =>
      if rest2 ≠ [] ∧ goLower c2 = 'b' then digitsToNat 2 rest2
      else if rest2 ≠ [] ∧ goLower c2 = 'o' then digitsToNat 8 rest2
      else if rest2 ≠ [] ∧ goLower c2 = 'x' then digitsToNat 16 rest2
      else digitsToNat 8 (c2 :: rest2)
  | s => digitsToNat 10 s

/-- Modelled from the Go standard library: strconv.ParseInt(num, 0, 32) as
mustAtoi calls it — optional sign, base detection from the prefix, and the
int32 range check.  none stands for any syntax or range error. -/
def goParseInt032 (s : String) : Option Int :=
  match s.data with
  | [] => none
  | c :: rest =>
    let neg := c = '-'
    let body := if c = '+' ∨ c = '-' then rest else c :: rest
    match parseUintBase0 body with
    | none => none
    | some un =>
      if ¬ neg ∧ 2 ^ 31 ≤ un then none
      else if neg ∧ 2 ^ 31 < un then none
      else some (if neg then -(un : Int) else (un : Int))

/-- mustAtoi from gen_packetid.go: strconv.ParseInt(num, 0, 32), panicking on
any error instead of returning it.  none models the panic — the function has
no error channel. -/
def mustAtoi (num : String) : Option Int := goParseInt032 num

/-- Go uppercase of an ASCII letter. -/
def goUpper (c : Char) : Char :=
  if 'a' ≤ c ∧ c ≤ 'z' then Char.ofNat (c.toNat - 32) else c

/-- Character loop behind toCamel: drop delimiters and uppercase the letter
that follows a delimiter (and the first letter). -/
def camelChars : List Char → Bool → List Char
  | [], _ => []
  | c :: cs, cap =>
    if c = '_' ∨ c = '-' ∨ c = ' ' ∨ c = '.' then camelChars cs true
    else (if cap then goUpper c else c) :: camelChars cs false

/-- Modelled from the spec: the third-party strcase.ToCamel dependency is not
part of this repository; per the spec it converts a raw snake-case packet
name to a capitalized camel-case identifier. -/
def toCamel (s : String) : String := String.mk (camelChars s.data true)

/-- A Go map from int32 packet ID to name, as an insertion-ordered
association list; the list order models the map iteration order. -/
abbrev Table := List (Int × String)

/-- duplexMappings from gen_packetid.go: the clientbound and serverbound
tables of one connection state. -/
structure duplexMappings where
  Clientbound : Table
  Serverbound : Table
deriving DecidableEq

/-- The reverse index EnsureUniqueNames builds over the Clientbound table:
clientBounds becomes name to clientbound ID, a later entry overwriting an
earlier one with the same name. -/
def buildClientBounds (cb : Table) : List (String × Int) :=
  cb.foldl (fun acc p => alInsert acc p.2 p.1) []

/-- One iteration of the serverbound loop of EnsureUniqueNames: when the
serverbound name is in the reverse index, both colliding entries are
reassigned with direction suffixes appended. -/
def eunStep (idx : List (String × Int)) (st : Table × Table) (q : Int × String) : Table × Table :=
  match alLookup idx q.2 with
  | some ck => (alInsert st.1 ck (q.2 ++ "Clientbound"), alInsert st.2 q.1 (q.2 ++ "Serverbound"))
  | none => st

/-- EnsureUniqueNames from gen_packetid.go: build the reverse index over the
Clientbound table, then walk the Serverbound table renaming both sides of
each collision in place. -/
def ensureUniqueNames (m : duplexMappings) : duplexMappings :=
  let clientBounds := buildClientBounds m.Clientbound
  let fin := m.Serverbound.foldl (eunStep clientBounds) (m.Clientbound, m.Serverbound)
  ⟨fin.1, fin.2⟩

/-- The chain of Go type assertions and indexings in unpackMapping that digs
the mappings object out of the types section: packet, index 1, index 0, the
type field, index 1, the mappings object.  Any failure in the chain is a Go
runtime panic, modelled as none. -/
def packetTypeMappings (info : List (String × JValue)) : Option (List (String × JValue)) := do
  let p ← alLookup info "packet"
  let l1 ← asArr p
  let e1 ← l1[1]?
  let l2 ← asArr e1
  let e2 ← l2[0]?
  let m1 ← asObj e2
  let t ← alLookup m1 "type"
  let l3 ← asArr t
  let e3 ← l3[1]?
  let m2 ← asObj e3
  let mm ← alLookup m2 "mappings"
  asObj mm

/-- The fill loop of unpackMapping over one mappings object: each key is
parsed by mustAtoi, each value asserted to a string, converted by toCamel and
assigned into the table.  A mustAtoi failure or a non-string value is a Go
panic. -/
def fillTable (maps : List (String × JValue)) : Outcome Table :=
  maps.foldl
    (fun acc q =>
      match acc with
      | .ok tbl =>
        match mustAtoi q.1, asStr q.2 with
        | some n, some s => .ok (alInsert tbl n (toCamel s))
        | _, _ => .panicked
      | other => other)
    (.ok [])

/-- One direction of unpackMapping: unnest to the types section (error
returns), then the assertion chain (panics), then the fill loop. -/
def unpackDirection (data : List (String × JValue)) (gameState dir : String) : Outcome Table :=
  match unnest data [gameState, dir, "types"] with
  | .error e => .error e
  | .ok info =>
    match packetTypeMappings info with
    | none => .panicked
    | some maps => fillTable maps

/-- unpackMapping from gen_packetid.go: extract the toClient table and then
the toServer table of one game state. -/
def unpackMapping (data : List (String × JValue)) (gameState : String) : Outcome duplexMappings :=
  match unpackDirection data gameState "toClient" with
  | .error e => .error e
  | .panicked => .panicked
  | .ok cb =>
    match unpackDirection data gameState "toServer" with
    | .error e => .error e
    | .panicked => .panicked
    | .ok sb => .ok ⟨cb, sb⟩

/-- protocolIDs from gen_packetid.go: the three StateMapping values. -/
structure protocolIDs where
  Login : duplexMappings
  Play : duplexMappings
  Status : duplexMappings
deriving DecidableEq

/-- Result of downloadInfo after the document is decoded: the protocolIDs, an
error return wrapped by fmt.Errorf with a state label, or a panic. -/
inductive DLOutcome where
  | ok : protocolIDs → DLOutcome
  | error (label : String) (err : ExtractErr) : DLOutcome
  | panicked : DLOutcome
deriving DecidableEq

/-- downloadInfo from gen_packetid.go after fetch and decode: unpack and
disambiguate login, play, status in that order, wrapping each unpack error
with a state label.  The source wraps the status error with the label
play. -/
def downloadInfo (data : List (String × JValue)) : DLOutcome :=
  match unpackMapping data "login" with
  | .panicked => .panicked
  | .error e => .error "login" e
  | .ok login =>
    let loginU := ensureUniqueNames login
    match unpackMapping data "play" with
    | .panicked => .panicked
    | .error e => .error "play" e
    | .ok play =>
      let playU := ensureUniqueNames play
      match unpackMapping data "status" with
      | .panicked => .panicked
      | .error e => .error "play" e
      | .ok status => .ok ⟨loginU, playU, ensureUniqueNames status⟩

/-- Names stored in a table, in iteration order. -/
def names (l : Table) : List String := l.map (fun p => p.2)

/-- Keys of a table are pairwise distinct, as Go map keys always are. -/
abbrev keysNodup (l : Table) : Prop := (l.map (fun p => p.1)).Nodup

/-- No name occurs in both direction tables of a StateMapping. -/
abbrev noSharedNames (m : duplexMappings) : Prop :=
  ∀ n ∈ names m.Clientbound, n ∉ names m.Serverbound

/-- The clientbound ID that the reverse-index construction writes last for a
given name: the ID of the last table entry carrying that name. -/
def lastWrittenId (cb : Table) (n : String) : Option Int :=
  cb.foldl (fun r p => if p.2 = n then some p.1 else r) none

/-- A direction subtree of the protocol document shaped exactly as
unpackMapping expects, carrying the given mappings object. -/
def dirDoc (maps : List (String × JValue)) : JValue :=
  .obj [("types", .obj [("packet",
    .arr [.str "container",
      .arr [.obj [("name", .str "name"),
        ("type", .arr [.str "mapper", .obj [("mappings", .obj maps)]])]]])])]

/-- A well-formed state subtree with the given clientbound and serverbound
mappings objects. -/
def stateDoc (cb sb : List (String × JValue)) : JValue :=
  .obj [("toClient", dirDoc cb), ("toServer", dirDoc sb)]

/-- A well-formed fixture document whose play state maps clientbound 0 to
spawn_entity and serverbound 0 to chat. -/
def playFixture : List (String × JValue) :=
  [("play", stateDoc [("0", .str "spawn_entity")] [("0", .str "chat")])]

/-- A fixture document whose play state has the unparsable mapping key
abc. -/
def abcFixture : List (String × JValue) :=
  [("play", stateDoc [("abc", .str "spawn_entity")] [("0", .str "chat")])]

/-- A fixture document whose play state is missing the toClient key. -/
def noToClientFixture : List (String × JValue) :=
  [("play", .obj [("toServer", dirDoc [("0", .str "chat")])])]

/-- A fixture document with well-formed login and play states and no status
state at all: status extraction fails with notFound. -/
def statusBadFixture : List (String × JValue) :=
  [("login", stateDoc [("0", .str "login_start")] [("0", .str "success")]),
   ("play", stateDoc [("0", .str "spawn_entity")] [("0", .str "chat")])]

/-- A StateMapping on which EnsureUniqueNames creates a cross-table
collision: the serverbound table already contains the suffixed form
FooClientbound that renaming the shared name Foo produces. -/
def mShared : duplexMappings :=
  ⟨[(0, "Foo")], [(1, "Foo"), (2, "FooClientbound")]⟩

/-- Two representations of the same clientbound map (the same key-value
pairs in the two possible iteration orders) with the same serverbound
table. -/
def m9a : duplexMappings := ⟨[(1, "Foo"), (2, "Foo")], [(3, "Foo")]⟩

/-- The companion of m9a with the opposite clientbound iteration order. -/
def m9b : duplexMappings := ⟨[(2, "Foo"), (1, "Foo")], [(3, "Foo")]⟩

/-! Association-list lemmas: how alLookup and alInsert interact, and what
membership in an inserted list means. -/

theorem alLookup_alInsert_self {α β : Type} [DecidableEq α] (l : List (α × β)) (k : α) (v : β) :
    alLookup (alInsert l k v) k = some v := by
  induction l with
  | nil => simp [alInsert, alLookup]
  | cons p t ih =>
    by_cases h : p.1 = k
    · simp [alInsert, h, alLookup]
    · simp [alInsert, h, alLookup, ih]

theorem alLookup_alInsert_ne {α β : Type} [DecidableEq α] (l : List (α × β)) (k k2 : α) (v : β)
    (h : k ≠ k2) : alLookup (alInsert l k v) k2 = alLookup l k2 := by
  induction l with
  | nil => simp [alInsert, alLookup, h]
  | cons p t ih =>
    by_cases hp : p.1 = k
    · have hp2 : p.1 ≠ k2 := by rw [hp]; exact h
      simp [alInsert, hp, alLookup, h, hp2]
    · simp [alInsert, hp, alLookup, ih]

theorem mem_alInsert {α β : Type} [DecidableEq α] {l : List (α × β)} {k : α} {v : β}
    {p : α × β} (hp : p ∈ alInsert l k v) : p = (k, v) ∨ p ∈ l := by
  induction l with
  | nil => simpa [alInsert] using hp
  | cons q t ih =>
    by_cases h : q.1 = k
    · simp only [alInsert, if_pos h, List.mem_cons] at hp
      rcases hp with h1 | h1
      · exact Or.inl h1
      · exact Or.inr (List.mem_cons_of_mem q h1)
    · simp only [alInsert, if_neg h, List.mem_cons] at hp
      rcases hp with h1 | h1
      · exact Or.inr (h1 ▸ List.mem_cons_self q t)
      · rcases ih h1 with h2 | h2
        · exact Or.inl h2
        · exact Or.inr (List.mem_cons_of_mem q h2)

theorem mem_alInsert_of_ne {α β : Type} [DecidableEq α] {l : List (α × β)} {k : α} {v : β}
    {p : α × β} (hp : p ∈ l) (hne : p.1 ≠ k) : p ∈ alInsert l k v := by
  induction l with
  | nil => cases hp
  | cons q t ih =>
    rcases List.mem_cons.mp hp with h1 | h1
    · have hq : q.1 ≠ k := h1 ▸ hne
      simp only [alInsert, if_neg hq]
      exact h1 ▸ List.mem_cons_self q (alInsert t k v)
    · by_cases h : q.1 = k
      · simp only [alInsert, if_pos h]
        exact List.mem_cons_of_mem _ h1
      · simp only [alInsert, if_neg h]
        exact List.mem_cons_of_mem q (ih h1)

theorem alInsert_keys {α β : Type} [DecidableEq α] {l : List (α × β)} {k : α} (v : β)
    (hk : k ∈ l.map (fun p => p.1)) :
    (alInsert l k v).map (fun p => p.1) = l.map (fun p => p.1) := by
  induction l with
  | nil => cases hk
  | cons q t ih =>
    by_cases h : q.1 = k
    · simp [alInsert, h]
    · have hk2 : k ∈ t.map (fun p => p.1) := by
        rcases List.mem_map.mp hk with ⟨p, hp, he⟩
        rcases List.mem_cons.mp hp with h1 | h1
        · exact absurd (h1 ▸ he) h
        · exact List.mem_map.mpr ⟨p, h1, he⟩
      simp [alInsert, h, ih hk2]

theorem nodup_key_inj {α β : Type} [DecidableEq α] {l : List (α × β)}
    (hnd : (l.map (fun p => p.1)).Nodup) {p q : α × β}
    (hp : p ∈ l) (hq : q ∈ l) (h : p.1 = q.1) : p = q := by
  induction l with
  | nil => cases hp
  | cons r t ih =>
    rw [List.map_cons, List.nodup_cons] at hnd
    rcases List.mem_cons.mp hp with h1 | h1 <;> rcases List.mem_cons.mp hq with h2 | h2
    · exact h1.trans h2.symm
    · exact absurd (List.mem_map.mpr ⟨q, h2, (h1 ▸ h).symm⟩) hnd.1
    · exact absurd (List.mem_map.mpr ⟨p, h1, h2 ▸ h⟩) hnd.1
    · exact ih hnd.2 h1 h2

theorem mem_alInsert_nodup {α β : Type} [DecidableEq α] {l : List (α × β)} {k : α} {v : β}
    (hnd : (l.map (fun p => p.1)).Nodup) {p : α × β} (hp : p ∈ alInsert l k v) :
    p = (k, v) ∨ (p ∈ l ∧ p.1 ≠ k) := by
  induction l with
  | nil => exact Or.inl (by simpa [alInsert] using hp)
  | cons q t ih =>
    rw [List.map_cons, List.nodup_cons] at hnd
    by_cases h : q.1 = k
    · simp only [alInsert, if_pos h, List.mem_cons] at hp
      rcases hp with h1 | h1
      · exact Or.inl h1
      · refine Or.inr ⟨List.mem_cons_of_mem q h1, fun hc => ?_⟩
        exact hnd.1 (List.mem_map.mpr ⟨p, h1, hc.trans h.symm⟩)
    · simp only [alInsert, if_neg h, List.mem_cons] at hp
      rcases hp with h1 | h1
      · exact Or.inr ⟨h1 ▸ List.mem_cons_self q t, h1 ▸ h⟩
      · rcases ih hnd.2 h1 with h2 | h2
        · exact Or.inl h2
        · exact Or.inr ⟨List.mem_cons_of_mem q h2.1, h2.2⟩

theorem names_alInsert {l : Table} {k : Int} {v : String} {w : String}
    (hw : w ∈ names (alInsert l k v)) : w = v ∨ w ∈ names l := by
  rcases List.mem_map.mp hw with ⟨p, hp, he⟩
  rcases mem_alInsert hp with h1 | h1
  · exact Or.inl (he ▸ h1 ▸ rfl)
  · exact Or.inr (List.mem_map.mpr ⟨p, h1, he⟩)

/-! Reverse-index lemmas: lookup in the index EnsureUniqueNames builds over
the Clientbound table is lookup of the last entry with the given name. -/

theorem buildClientBounds_loop (cb : Table) :
    ∀ (acc : List (String × Int)) (n : String),
      alLookup (cb.foldl (fun a p => alInsert a p.2 p.1) acc) n =
        cb.foldl (fun r p => if p.2 = n then some p.1 else r) (alLookup acc n) := by
  induction cb with
  | nil => intro acc n; rfl
  | cons p t ih =>
    intro acc n
    simp only [List.foldl_cons]
    rw [ih]
    by_cases h : p.2 = n
    · rw [if_pos h, h, alLookup_alInsert_self]
    · rw [if_neg h, alLookup_alInsert_ne _ _ _ _ h]

theorem buildClientBounds_lookup (cb : Table) (n : String) :
    alLookup (buildClientBounds cb) n = lastWrittenId cb n :=
  buildClientBounds_loop cb [] n

theorem lastWrittenId_loop_mem (n : String) (ck : Int) :
    ∀ (cb : Table) (r0 : Option Int),
      cb.foldl (fun r p => if p.2 = n then some p.1 else r) r0 = some ck →
      (ck, n) ∈ cb ∨ r0 = some ck := by
  intro cb
  induction cb with
  | nil => intro r0 h; exact Or.inr h
  | cons p t ih =>
    intro r0 h
    simp only [List.foldl_cons] at h
    rcases ih _ h with h1 | h1
    · exact Or.inl (List.mem_cons_of_mem p h1)
    · by_cases hp : p.2 = n
      · rw [if_pos hp] at h1
        have : p = (ck, n) := by
          cases p
          simp only [Option.some.injEq] at h1
          simp_all
        exact Or.inl (this ▸ List.mem_cons_self p t)
      · rw [if_neg hp] at h1
        exact Or.inr h1

theorem lastWrittenId_mem {cb : Table} {n : String} {ck : Int}
    (h : lastWrittenId cb n = some ck) : (ck, n) ∈ cb := by
  rcases lastWrittenId_loop_mem n ck cb none h with h1 | h1
  · exact h1
  · cases h1

theorem idx_some_mem {cb : Table} {n : String} {ck : Int}
    (h : alLookup (buildClientBounds cb) n = some ck) : (ck, n) ∈ cb :=
  lastWrittenId_mem (buildClientBounds_lookup cb n ▸ h)

theorem lastWrittenId_loop_isSome (n : String) :
    ∀ (cb : Table) (r0 : Option Int), r0.isSome →
      (cb.foldl (fun r p => if p.2 = n then some p.1 else r) r0).isSome := by
  intro cb
  induction cb with
  | nil => intro r0 h; exact h
  | cons p t ih =>
    intro r0 h
    simp only [List.foldl_cons]
    apply ih
    by_cases hp : p.2 = n
    · rw [if_pos hp]; rfl
    · rw [if_neg hp]; exact h

theorem lastWrittenId_loop_isSome_of_mem (n : String) :
    ∀ (cb : Table) (r0 : Option Int) (p : Int × String), p ∈ cb → p.2 = n →
      (cb.foldl (fun r q => if q.2 = n then some q.1 else r) r0).isSome := by
  intro cb
  induction cb with
  | nil => intro r0 p hp _; cases hp
  | cons q t ih =>
    intro r0 p hp he
    simp only [List.foldl_cons]
    rcases List.mem_cons.mp hp with h1 | h1
    · apply lastWrittenId_loop_isSome
      rw [← h1, if_pos he]; rfl
    · exact ih _ p h1 he

theorem idx_isSome_of_mem {cb : Table} {n : String} (h : n ∈ names cb) :
    (alLookup (buildClientBounds cb) n).isSome := by
  rw [buildClientBounds_lookup]
  rcases List.mem_map.mp h with ⟨p, hp, he⟩
  unfold lastWrittenId
  exact lastWrittenId_loop_isSome_of_mem n cb none p hp he

/-! Disjointness of the two rename suffixes. -/

theorem clientbound_ne_serverbound (a b : String) :
    a ++ "Clientbound" ≠ b ++ "Serverbound" := by
  intro h
  have hd : a.data ++ "Clientbound".data = b.data ++ "Serverbound".data := by
    have := congrArg String.data h
    simpa [String.data_append] using this
  have hlen := congrArg List.length hd
  rw [List.length_append, List.length_append] at hlen
  have e1 : ("Clientbound".data.length) = 11 := rfl
  have e2 : ("Serverbound".data.length) = 11 := rfl
  rw [e1, e2] at hlen
  have hlen2 : a.data.length = b.data.length := by omega
  have h2 := (List.append_inj hd hlen2).2
  exact absurd h2 (by decide)

/-! Fold lemmas over the serverbound loop of EnsureUniqueNames. -/

theorem ensureUniqueNames_eq (m : duplexMappings) :
    ensureUniqueNames m =
      ⟨(m.Serverbound.foldl (eunStep (buildClientBounds m.Clientbound)) (m.Clientbound, m.Serverbound)).1,
       (m.Serverbound.foldl (eunStep (buildClientBounds m.Clientbound)) (m.Clientbound, m.Serverbound)).2⟩ :=
  rfl

theorem foldl_eunStep_none (idx : List (String × Int)) :
    ∀ (l : List (Int × String)) (st : Table × Table),
      (∀ q ∈ l, alLookup idx q.2 = none) →
      l.foldl (eunStep idx) st = st := by
  intro l
  induction l with
  | nil => intro st _; rfl
  | cons q l2 ih =>
    intro st h
    simp only [List.foldl_cons]
    have hq := h q (List.mem_cons_self q l2)
    have hstep : eunStep idx st q = st := by simp [eunStep, hq]
    rw [hstep]
    exact ih st (fun r hr => h r (List.mem_cons_of_mem q hr))

theorem eunFold_no_shared (C0 S0 : Table) (hks : keysNodup S0)
    (H : ∀ n ∈ names C0, n ∈ names S0 →
      (n ++ "Clientbound") ∉ names S0 ∧ (n ++ "Serverbound") ∉ names C0) :
    ∀ (l : List (Int × String)) (st : Table × Table),
      (∀ q ∈ l, q ∈ S0) →
      st.2.map (fun p => p.1) = S0.map (fun p => p.1) →
      (∀ p ∈ st.2, p.2 ∈ names C0 → p ∈ l) →
      (∀ v ∈ names st.2, v ∈ names S0 ∨ ∃ n, n ∈ names C0 ∧ n ∈ names S0 ∧ v = n ++ "Serverbound") →
      (∀ v ∈ names st.1, v ∈ names C0 ∨ ∃ n, n ∈ names C0 ∧ n ∈ names S0 ∧ v = n ++ "Clientbound") →
      (∀ p ∈ (l.foldl (eunStep (buildClientBounds C0)) st).2, p.2 ∉ names C0) ∧
      (∀ v ∈ names (l.foldl (eunStep (buildClientBounds C0)) st).2,
        v ∈ names S0 ∨ ∃ n, n ∈ names C0 ∧ n ∈ names S0 ∧ v = n ++ "Serverbound") ∧
      (∀ v ∈ names (l.foldl (eunStep (buildClientBounds C0)) st).1,
        v ∈ names C0 ∨ ∃ n, n ∈ names C0 ∧ n ∈ names S0 ∧ v = n ++ "Clientbound") := by
  intro l
  induction l with
  | nil =>
    intro st _ _ hA hB hC
    refine ⟨fun p hp hc => ?_, hB, hC⟩
    cases hA p hp hc
  | cons q l2 ih =>
    intro st hl hkeys hA hB hC
    simp only [List.foldl_cons]
    have hqS0 : q ∈ S0 := hl q (List.mem_cons_self q l2)
    have hl2 : ∀ r ∈ l2, r ∈ S0 := fun r hr => hl r (List.mem_cons_of_mem q hr)
    cases hlk : alLookup (buildClientBounds C0) q.2 with
    | none =>
      have hstep : eunStep (buildClientBounds C0) st q = st := by simp [eunStep, hlk]
      rw [hstep]
      apply ih st hl2 hkeys _ hB hC
      intro p hp hc
      rcases List.mem_cons.mp (hA p hp hc) with h1 | h1
      · exfalso
        have hsome : (alLookup (buildClientBounds C0) q.2).isSome :=
          idx_isSome_of_mem (by rw [← h1]; exact hc)
        rw [hlk] at hsome
        cases hsome
      · exact h1
    | some ck =>
      have hstep : eunStep (buildClientBounds C0) st q =
          (alInsert st.1 ck (q.2 ++ "Clientbound"), alInsert st.2 q.1 (q.2 ++ "Serverbound")) := by
        simp [eunStep, hlk]
      rw [hstep]
      have hq2C : q.2 ∈ names C0 := List.mem_map.mpr ⟨(ck, q.2), idx_some_mem hlk, rfl⟩
      have hq2S : q.2 ∈ names S0 := List.mem_map.mpr ⟨q, hqS0, rfl⟩
      have hq1keys : q.1 ∈ st.2.map (fun p => p.1) := by
        rw [hkeys]; exact List.mem_map.mpr ⟨q, hqS0, rfl⟩
      have hndst : (st.2.map (fun p => p.1)).Nodup := by rw [hkeys]; exact hks
      apply ih _ hl2
      · show (alInsert st.2 q.1 (q.2 ++ "Serverbound")).map (fun p => p.1) = S0.map (fun p => p.1)
        rw [alInsert_keys _ hq1keys, hkeys]
      · intro p hp hc
        rcases mem_alInsert_nodup hndst hp with h1 | h1
        · exfalso
          have hp2 : p.2 = q.2 ++ "Serverbound" := by rw [h1]
          rw [hp2] at hc
          exact (H q.2 hq2C hq2S).2 hc
        · rcases List.mem_cons.mp (hA p h1.1 hc) with h2 | h2
          · exact absurd (by rw [h2]) h1.2
          · exact h2
      · intro v hv
        rcases names_alInsert hv with h1 | h1
        · exact Or.inr ⟨q.2, hq2C, hq2S, h1⟩
        · exact hB v h1
      · intro v hv
        rcases names_alInsert hv with h1 | h1
        · exact Or.inr ⟨q.2, hq2C, hq2S, h1⟩
        · exact hC v h1

theorem eunFold_frame (C0 S0 : Table) (hkc : keysNodup C0) (hks : keysNodup S0) :
    ∀ (l : List (Int × String)) (st : Table × Table),
      (∀ q ∈ l, q ∈ S0) →
      st.1.map (fun p => p.1) = C0.map (fun p => p.1) →
      st.2.map (fun p => p.1) = S0.map (fun p => p.1) →
      (∀ p ∈ C0, p.2 ∉ names S0 → p ∈ st.1) →
      (∀ p ∈ S0, p.2 ∉ names C0 → p ∈ st.2) →
      (l.foldl (eunStep (buildClientBounds C0)) st).1.map (fun p => p.1) = C0.map (fun p => p.1) ∧
      (l.foldl (eunStep (buildClientBounds C0)) st).2.map (fun p => p.1) = S0.map (fun p => p.1) ∧
      (∀ p ∈ C0, p.2 ∉ names S0 → p ∈ (l.foldl (eunStep (buildClientBounds C0)) st).1) ∧
      (∀ p ∈ S0, p.2 ∉ names C0 → p ∈ (l.foldl (eunStep (buildClientBounds C0)) st).2) := by
  intro l
  induction l with
  | nil => intro st _ h1 h2 h3 h4; exact ⟨h1, h2, h3, h4⟩
  | cons q l2 ih =>
    intro st hl hc1 hc2 hp1 hp2
    simp only [List.foldl_cons]
    have hqS0 : q ∈ S0 := hl q (List.mem_cons_self q l2)
    have hl2 : ∀ r ∈ l2, r ∈ S0 := fun r hr => hl r (List.mem_cons_of_mem q hr)
    cases hlk : alLookup (buildClientBounds C0) q.2 with
    | none =>
      have hstep : eunStep (buildClientBounds C0) st q = st := by simp [eunStep, hlk]
      rw [hstep]
      exact ih st hl2 hc1 hc2 hp1 hp2
    | some ck =>
      have hstep : eunStep (buildClientBounds C0) st q =
          (alInsert st.1 ck (q.2 ++ "Clientbound"), alInsert st.2 q.1 (q.2 ++ "Serverbound")) := by
        simp [eunStep, hlk]
      rw [hstep]
      have hckC0 : (ck, q.2) ∈ C0 := idx_some_mem hlk
      have hq2C : q.2 ∈ names C0 := List.mem_map.mpr ⟨(ck, q.2), hckC0, rfl⟩
      have hq2S : q.2 ∈ names S0 := List.mem_map.mpr ⟨q, hqS0, rfl⟩
      have hckKeys : ck ∈ st.1.map (fun p => p.1) := by
        rw [hc1]; exact List.mem_map.mpr ⟨(ck, q.2), hckC0, rfl⟩
      have hq1Keys : q.1 ∈ st.2.map (fun p => p.1) := by
        rw [hc2]; exact List.mem_map.mpr ⟨q, hqS0, rfl⟩
      apply ih _ hl2
      · show (alInsert st.1 ck (q.2 ++ "Clientbound")).map (fun p => p.1) = C0.map (fun p => p.1)
        rw [alInsert_keys _ hckKeys, hc1]
      · show (alInsert st.2 q.1 (q.2 ++ "Serverbound")).map (fun p => p.1) = S0.map (fun p => p.1)
        rw [alInsert_keys _ hq1Keys, hc2]
      · intro p hpC0 hpn
        apply mem_alInsert_of_ne (hp1 p hpC0 hpn)
        intro hpk
        have hpe : p = (ck, q.2) := nodup_key_inj hkc hpC0 hckC0 (by rw [hpk])
        rw [hpe] at hpn
        exact hpn hq2S
      · intro p hpS0 hpn
        apply mem_alInsert_of_ne (hp2 p hpS0 hpn)
        intro hpk
        have hpe : p = q := nodup_key_inj hks hpS0 hqS0 (by rw [hpk])
        rw [hpe] at hpn
        exact hpn hq2C

/-! Claim theorems. -/

/-- C1, counterexample to the claim as stated: on the StateMapping mShared,
whose serverbound table already contains the suffixed form FooClientbound of
the shared name Foo, EnsureUniqueNames leaves the name FooClientbound present
in both tables, so a name does appear in both tables after disambiguation. -/
theorem c1_counterexample :
    "FooClientbound" ∈ names (ensureUniqueNames mShared).Clientbound ∧
    "FooClientbound" ∈ names (ensureUniqueNames mShared).Serverbound := by
  decide

/-- C1 (amended): for a StateMapping with distinct serverbound IDs in which
no suffixed variant of a shared name is already present in the opposite
table, after EnsureUniqueNames has run once no canonical name appears in both
the Clientbound and Serverbound tables. -/
theorem c1_disambiguated_names_disjoint (m : duplexMappings)
    (hks : keysNodup m.Serverbound)
    (H : ∀ n ∈ names m.Clientbound, n ∈ names m.Serverbound →
      (n ++ "Clientbound") ∉ names m.Serverbound ∧ (n ++ "Serverbound") ∉ names m.Clientbound)
    (v : String) (hv : v ∈ names (ensureUniqueNames m).Clientbound) :
    v ∉ names (ensureUniqueNames m).Serverbound := by
  intro hs
  obtain ⟨hA, hB, hC⟩ :=
    eunFold_no_shared m.Clientbound m.Serverbound hks H m.Serverbound
      (m.Clientbound, m.Serverbound) (fun q hq => hq) rfl (fun p hp _ => hp)
      (fun w hw => Or.inl hw) (fun w hw => Or.inl hw)
  rcases hC v hv with h1 | ⟨n, hnC, hnS, rfl⟩
  · rcases List.mem_map.mp hs with ⟨p, hp, he⟩
    exact hA p hp (by rw [he]; exact h1)
  · rcases hB _ hs with h2 | ⟨n2, hn2C, hn2S, he2⟩
    · exact (H n hnC hnS).1 h2
    · exact clientbound_ne_serverbound n n2 he2

/-- C1, witness: the amended theorem applied to the keep-alive collision
mapping, at the renamed clientbound name. -/
theorem c1_disambiguated_names_disjoint_witness :
    "KeepAliveClientbound" ∉
      names (ensureUniqueNames ⟨[(5, "KeepAlive")], [(7, "KeepAlive")]⟩).Serverbound :=
  c1_disambiguated_names_disjoint ⟨[(5, "KeepAlive")], [(7, "KeepAlive")]⟩ (by decide)
    (by decide) "KeepAliveClientbound" (by decide)

/-- C2, counterexample to the claim as stated: on a document whose play state
carries the unparsable mapping key abc, the Extractor neither returns a
StateMapping nor returns an error — mustAtoi panics. -/
theorem c2_counterexample : unpackMapping abcFixture "play" = Outcome.panicked := by
  decide

/-- C2 (amended): the Extractor either returns a StateMapping, or returns a
NotFound or TypeMismatch error from the unnest traversal (in particular a
document missing the requested state key yields NotFound for that state, and
one missing toClient yields NotFound for toClient), or panics — an
unparsable mapping key such as abc causes a panic, not a ParseError error
return; in every failing case there is no partial result. -/
theorem c2_extractor_error_amended :
    (∀ (data : List (String × JValue)) (st : String), alLookup data st = none →
      unpackMapping data st = Outcome.error (ExtractErr.notFound st)) ∧
    unpackMapping noToClientFixture "play" = Outcome.error (ExtractErr.notFound "toClient") ∧
    unpackMapping abcFixture "play" = Outcome.panicked := by
  refine ⟨?_, by decide, by decide⟩
  intro data st h
  simp [unpackMapping, unpackDirection, unnest, h]

/-- C3, counterexample to the claim as stated: on the raw input names
keep_alive the Disambiguator does not produce KeepAliveClientbound and
KeepAliveServerbound — it appends the suffixes verbatim without camel
casing. -/
theorem c3_counterexample :
    ensureUniqueNames ⟨[(5, "keep_alive")], [(7, "keep_alive")]⟩ ≠
      duplexMappings.mk [(5, "KeepAliveClientbound")] [(7, "KeepAliveServerbound")] := by
  decide

/-- C3 (amended): the Disambiguator appends the direction suffixes verbatim
to the stored names, preserving both IDs: on the camel-cased names KeepAlive
(as extraction produces from raw keep_alive) it yields KeepAliveClientbound
and KeepAliveServerbound, and on the raw names keep_alive it yields
keep_aliveClientbound and keep_aliveServerbound. -/
theorem c3_collision_suffixing :
    ensureUniqueNames ⟨[(5, "KeepAlive")], [(7, "KeepAlive")]⟩ =
      duplexMappings.mk [(5, "KeepAliveClientbound")] [(7, "KeepAliveServerbound")] ∧
    ensureUniqueNames ⟨[(5, "keep_alive")], [(7, "keep_alive")]⟩ =
      duplexMappings.mk [(5, "keep_aliveClientbound")] [(7, "keep_aliveServerbound")] :=
  ⟨by decide, by decide⟩

/-- C4: on any StateMapping with distinct IDs per table, EnsureUniqueNames
preserves the key sequence of both tables (so the set of IDs, removing no
entry), and leaves every entry whose name does not occur in both directions
unchanged. -/
theorem c4_frame_preservation (m : duplexMappings) (hkc : keysNodup m.Clientbound)
    (hks : keysNodup m.Serverbound) :
    (ensureUniqueNames m).Clientbound.map (fun p => p.1) = m.Clientbound.map (fun p => p.1) ∧
    (ensureUniqueNames m).Serverbound.map (fun p => p.1) = m.Serverbound.map (fun p => p.1) ∧
    (∀ p ∈ m.Clientbound, p.2 ∉ names m.Serverbound → p ∈ (ensureUniqueNames m).Clientbound) ∧
    (∀ p ∈ m.Serverbound, p.2 ∉ names m.Clientbound → p ∈ (ensureUniqueNames m).Serverbound) :=
  eunFold_frame m.Clientbound m.Serverbound hkc hks m.Serverbound
    (m.Clientbound, m.Serverbound) (fun _ hq => hq) rfl rfl
    (fun _ hp _ => hp) (fun _ hp _ => hp)

/-- C4, witness: the frame theorem applied to a concrete two-entry
StateMapping, read off at its clientbound key sequence. -/
theorem c4_frame_preservation_witness :
    (ensureUniqueNames ⟨[(5, "Alpha")], [(7, "Beta")]⟩).Clientbound.map (fun p => p.1) =
      (duplexMappings.mk [(5, "Alpha")] [(7, "Beta")]).Clientbound.map (fun p => p.1) :=
  (c4_frame_preservation ⟨[(5, "Alpha")], [(7, "Beta")]⟩ (by decide) (by decide)).1

/-- C5: on the well-formed fixture whose play state maps clientbound 0 to
spawn_entity and serverbound 0 to chat, the Extractor yields SpawnEntity and
Chat under ID 0 (names camel-cased), and the subsequent disambiguation
leaves that StateMapping unchanged. -/
theorem c5_extraction_play_fixture :
    unpackMapping playFixture "play" = Outcome.ok ⟨[(0, "SpawnEntity")], [(0, "Chat")]⟩ ∧
    ensureUniqueNames ⟨[(0, "SpawnEntity")], [(0, "Chat")]⟩ =
      duplexMappings.mk [(0, "SpawnEntity")] [(0, "Chat")] :=
  ⟨by decide, by decide⟩

/-- C6, counterexample to the claim as stated: a second application of the
Disambiguator immediately after a first one is not always a no-op — on
mShared the first run leaves a shared name, so the second run renames
again. -/
theorem c6_counterexample :
    ensureUniqueNames (ensureUniqueNames mShared) ≠ ensureUniqueNames mShared := by
  decide

/-- C6 (amended): on a StateMapping with no name shared between the two
tables the Disambiguator returns its input unchanged; consequently a second
application changes nothing whenever the first run results in no shared
names — which the first run guarantees only under the C1 side condition, not
for arbitrary inputs. -/
theorem c6_no_op_without_collisions :
    (∀ m : duplexMappings, noSharedNames m → ensureUniqueNames m = m) ∧
    (∀ m : duplexMappings, noSharedNames (ensureUniqueNames m) →
      ensureUniqueNames (ensureUniqueNames m) = ensureUniqueNames m) := by
  have base : ∀ m : duplexMappings, noSharedNames m → ensureUniqueNames m = m := by
    intro m hno
    have hall : ∀ q ∈ m.Serverbound, alLookup (buildClientBounds m.Clientbound) q.2 = none := by
      intro q hq
      cases hlk : alLookup (buildClientBounds m.Clientbound) q.2 with
      | none => rfl
      | some ck2 =>
        exfalso
        have hmem : (ck2, q.2) ∈ m.Clientbound := idx_some_mem hlk
        have hC : q.2 ∈ names m.Clientbound := List.mem_map.mpr ⟨(ck2, q.2), hmem, rfl⟩
        exact hno q.2 hC (List.mem_map.mpr ⟨q, hq, rfl⟩)
    have hfold := foldl_eunStep_none (buildClientBounds m.Clientbound) m.Serverbound
      (m.Clientbound, m.Serverbound) hall
    rw [ensureUniqueNames_eq, hfold]
  exact ⟨base, fun m h => base (ensureUniqueNames m) h⟩

/-- C7: mustAtoi accepts decimal and hexadecimal key forms; the keys 0, 0x0
and 0X00 all parse to 0, and 26 and 0x1A parse to the same ID. -/
theorem c7_flexible_key_parsing :
    mustAtoi "0" = some 0 ∧ mustAtoi "0x0" = some 0 ∧ mustAtoi "0X00" = some 0 ∧
    mustAtoi "26" = some 26 ∧ mustAtoi "0x1A" = some 26 := by
  decide

/-- C8: on a document whose login and play states are well formed but whose
status state is missing, downloadInfo reports the status failure wrapped
with the label play, not status — the copy-paste slip in the source. -/
theorem c8_status_error_labelled_play :
    downloadInfo statusBadFixture = DLOutcome.error "play" (ExtractErr.notFound "status") ∧
    ("play" : String) ≠ "status" :=
  ⟨by decide, by decide⟩

/-- C9: reverse-index lookup returns the clientbound ID written last for a
name, and on the duplicate-name mappings m9a and m9b — equal as maps, listed
in the two iteration orders — EnsureUniqueNames renames only the last-written
entry, so the outputs differ as maps. -/
theorem c9_reverse_index_last_write_wins :
    (∀ (cb : Table) (n : String), alLookup (buildClientBounds cb) n = lastWrittenId cb n) ∧
    ensureUniqueNames m9a = ⟨[(1, "Foo"), (2, "FooClientbound")], [(3, "FooServerbound")]⟩ ∧
    ensureUniqueNames m9b = ⟨[(2, "Foo"), (1, "FooClientbound")], [(3, "FooServerbound")]⟩ ∧
    (∀ k : Int, alLookup m9a.Clientbound k = alLookup m9b.Clientbound k) ∧
    m9a.Serverbound = m9b.Serverbound ∧
    alLookup (ensureUniqueNames m9a).Clientbound 1 ≠ alLookup (ensureUniqueNames m9b).Clientbound 1 := by
  refine ⟨buildClientBounds_lookup, by decide, by decide, ?_, by decide, by decide⟩
  intro k
  by_cases h1 : (1 : Int) = k
  · simp [m9a, m9b, alLookup, h1]
  · by_cases h2 : (2 : Int) = k
    · simp [m9a, m9b, alLookup, h1, h2]
    · simp [m9a, m9b, alLookup, h1, h2]

/-- C10: mustAtoi is base-0, 32-bit signed parsing — a leading zero means
octal (010 is 8), a negative key such as -1 is accepted and yields a
negative ID, and a value outside the int32 range panics (none) instead of
returning an error. -/
theorem c10_base0_int32_parsing :
    mustAtoi "010" = some 8 ∧ mustAtoi "-1" = some (-1) ∧
    mustAtoi "2147483647" = some 2147483647 ∧
    mustAtoi "0x80000000" = none ∧ mustAtoi "2147483648" = none := by
  decide

end GenPacketid
